import Mathlib

/-!
Verification of the passport_extractor MRZ decoding and record-normalization
pipeline.  Strings of the Python sources are modelled as `List Char`
(one Python character per list element); Python string slices `s[a:b]`
become `(l.drop a).take (b - a)`, `str.replace`, `str.strip`, `str.split`
and friends become the explicit list functions below.
-/

namespace PassportExtractor

/-! ### Character-level models of the Python string primitives -/

/-- Model of Python's `str.upper` on a single character, restricted to the
ASCII range (the only range the MRZ pipeline feeds it). -/
def upperChar (c : Char) : Char :=
  if 97 ≤ c.toNat ∧ c.toNat ≤ 122 then Char.ofNat (c.toNat - 32) else c

/-- Model of Python's `str.lower` on a single character (ASCII range). -/
def lowerChar (c : Char) : Char :=
  if 65 ≤ c.toNat ∧ c.toNat ≤ 90 then Char.ofNat (c.toNat + 32) else c

/-- Python whitespace as used by `str.split()` / `str.strip()` (ASCII part). -/
def isWs (c : Char) : Bool :=
  c = ' ' || c = '\t' || c = '\n' || c = '\x0d' || c = '\x0b' || c = '\x0c'

/-- Strip whitespace from both ends: Python `str.strip()`. -/
def stripWs (l : List Char) : List Char :=
  ((l.dropWhile isWs).reverse.dropWhile isWs).reverse

/-- Strip the MRZ filler from both ends: Python `str.strip('<')`. -/
def stripFiller (l : List Char) : List Char :=
  ((l.dropWhile (fun c => c = '<')).reverse.dropWhile (fun c => c = '<')).reverse

/-- Python `s.replace('<', '')`. -/
def removeFiller (l : List Char) : List Char := l.filter (fun c => c ≠ '<')

/-- Python `s.replace('<', ' ')`. -/
def fillerToSpace (l : List Char) : List Char :=
  l.map (fun c => if c = '<' then ' ' else c)

/-- Python `s.split('<<', 1)`: `some (before, after)` splits at the first
occurrence of the double filler, `none` when `'<<' not in s`. -/
def splitDouble : List Char → Option (List Char × List Char)
  | '<' :: '<' :: rest => some ([], rest)
  | c :: rest => (splitDouble rest).map (fun p => (c :: p.1, p.2))
  | [] => none

/-! ### clean_mrz_line (src/utils.py) -/

/-- The MRZ alphabet `string.ascii_uppercase + string.digits + "<"`. -/
def allowedMrzChar (c : Char) : Bool :=
  (65 ≤ c.toNat && c.toNat ≤ 90) || (48 ≤ c.toNat && c.toNat ≤ 57) || c = '<'

/-- Embedding of `utils.clean_mrz_line`: uppercase, delete spaces, keep only
the MRZ alphabet, pad with fillers below 44 characters, then cut at 44. -/
def clean_mrz_line (line : List Char) : List Char :=
  if line = [] then []
  else
    let l1 := (line.map upperChar).filter (fun c => c ≠ ' ')
    let l2 := l1.filter allowedMrzChar
    let l3 := if l2.length < 44 then l2 ++ List.replicate (44 - l2.length) '<' else l2
    l3.take 44

/-! ### FallbackMRZ (src/fallback_mrz.py) -/

/-- The fields of the `FallbackMRZ` object filled in by `_parse`. -/
structure MRZData where
  type : List Char
  country : List Char
  surname : List Char
  names : List Char
  number : List Char
  nationality : List Char
  date_of_birth : List Char
  sex : List Char
  expiration_date : List Char
  personal_number : List Char
deriving DecidableEq, Repr

/-- All fields initialized empty, as in `FallbackMRZ.__init__`. -/
def emptyMRZ : MRZData := ⟨[], [], [], [], [], [], [], [], [], []⟩

/-- Line-1 part of `FallbackMRZ._parse`: type and country slices, then the
name region `line1[5:]` stripped of fillers and split at the first `<<`. -/
def parseLine1Fields (line1 : List Char) : List Char × List Char × List Char × List Char :=
  let ty := removeFiller (line1.take 2)
  let country := removeFiller ((line1.drop 2).take 3)
  let full_name := stripFiller (line1.drop 5)
  match splitDouble full_name with
  | some p => (ty, country, stripWs (fillerToSpace p.1), stripWs (fillerToSpace p.2))
  | none => (ty, country, stripWs (fillerToSpace full_name), [])

/-- Embedding of `FallbackMRZ._parse` (the `try` block cannot raise: every
operation is a total slice/replace/strip on strings of checked length). -/
def FallbackMRZ.parse (line1 line2 : List Char) : MRZData :=
  let d1 :=
    if 44 ≤ line1.length then
      let f := parseLine1Fields line1
      { emptyMRZ with type := f.1, country := f.2.1, surname := f.2.2.1, names := f.2.2.2 }
    else emptyMRZ
  if 44 ≤ line2.length then
    { d1 with
      number := removeFiller (line2.take 9),
      nationality := removeFiller ((line2.drop 10).take 3),
      date_of_birth := (line2.drop 13).take 6,
      sex := (line2.drop 20).take 1,
      expiration_date := (line2.drop 21).take 6,
      personal_number := removeFiller ((line2.drop 28).take 14) }
  else d1

/-- Python slice `l[a:b]` for `a ≤ b`. -/
def pySlice (l : List Char) (a b : Nat) : List Char := (l.drop a).take (b - a)

/-- The name-region behaviour exactly as claim C1 words it: split the region
on the first `<<`; before is the surname, after the given names; no `<<`
means the whole region is the surname; fillers inside each segment become
spaces and the segment is trimmed. -/
def claimNameFields (region : List Char) : List Char × List Char :=
  match splitDouble region with
  | some p => (stripWs (fillerToSpace p.1), stripWs (fillerToSpace p.2))
  | none => (stripWs (fillerToSpace region), [])

/-! ### clean_name_field (src/utils.py) -/

/-- Python `text.replace("<<", " ")`: each non-overlapping double filler,
scanned left to right, becomes one space. -/
def replDoubleFiller : List Char → List Char
  | [] => []
  | [c] => [c]
  | c :: d :: rest =>
    if c = '<' ∧ d = '<' then ' ' :: replDoubleFiller rest
    else c :: replDoubleFiller (d :: rest)

/-- Left-to-right scan behind `splitWs`: `acc` holds the reversed current
word; a whitespace character flushes it. -/
def splitWsAux : List Char → List Char → List (List Char)
  | [], acc => if acc = [] then [] else [acc.reverse]
  | c :: rest, acc =>
    if isWs c then
      if acc = [] then splitWsAux rest []
      else acc.reverse :: splitWsAux rest []
    else splitWsAux rest (c :: acc)

/-- Python `text.split()`: split on whitespace runs, dropping empty tokens. -/
def splitWs (l : List Char) : List (List Char) := splitWsAux l []

/-- Python `word.count('K')`. -/
def countK (w : List Char) : Nat := (w.filter (fun c => c = 'K')).length

/-- The step-3a test of `clean_name_field`: length at least 3 and a `'K'`
fraction strictly above `0.7` (as exact rational arithmetic). -/
def isLongJunk (w : List Char) : Bool :=
  3 ≤ w.length && 7 * w.length < 10 * countK w

/-- The step-3b test of `clean_name_field`:
`len(word) <= 2 and all(c in 'K' for c in word)`. -/
def isShortJunk (w : List Char) : Bool :=
  w.length ≤ 2 && w.all (fun c => c = 'K')

/-- The look-ahead of step 3b: how many consecutive short junk tokens start
at this position (`junk_sequence_len` in the source). -/
def junkRunLen (ws : List (List Char)) : Nat := (ws.takeWhile isShortJunk).length

/-- The token scan loop of `clean_name_field`: `break` is modelled by
returning `[]`, appending to `cleaned_words` by consing. -/
def scanWords : List (List Char) → List (List Char)
  | [] => []
  | w :: ws =>
    if isLongJunk w then []
    else if isShortJunk w && 2 ≤ junkRunLen (w :: ws) then []
    else w :: scanWords ws

/-- Python `" ".join(words)`. -/
def joinWords : List (List Char) → List Char
  | [] => []
  | [w] => w
  | w :: ws => w ++ ' ' :: joinWords ws

/-- Steps 1-2 of `clean_name_field`: `text.upper()`, then
`text.replace("<<", " ")`, then `text.replace("<", " ")`. -/
def expandText (text : List Char) : List Char :=
  (replDoubleFiller (text.map upperChar)).map (fun c => if c = '<' then ' ' else c)

/-- Embedding of `utils.clean_name_field`: uppercase, expand `<<` then `<`
to spaces, tokenize, run the junk scan, join with single spaces and strip. -/
def clean_name_field (text : List Char) : List Char :=
  if text = [] then []
  else stripWs (joinWords (scanWords (splitWs (expandText text))))

/-- Whether a list of tokens starts with a short all-`'K'` token: the claim's
condition that two or more consecutive noise tokens start at the current
token is that the current token and the next both satisfy `isShortJunk`. -/
def nextIsShortNoise : List (List Char) → Bool
  | w2 :: _ => isShortJunk w2
  | [] => false

/-- The token scan exactly as claim C4 words it: a token of length at least 3
with `'K'` fraction above `0.7` ends the scan; a short all-`'K'` token ends
the scan exactly when the next token is also a short all-`'K'` token. -/
def claimScan : List (List Char) → List (List Char)
  | [] => []
  | w :: ws =>
    if isLongJunk w then []
    else if isShortJunk w && nextIsShortNoise ws then []
    else w :: claimScan ws

/-! ### Validators (src/validators.py and src/validator.py) -/

/-- A passport-data record: the Python dict of field name to string value. -/
abbrev Record := List (String × String)

/-- Python `str.strip()` on a `String`. -/
def pyStrip (s : String) : String := ⟨stripWs s.data⟩

/-- Python `str.lower()` on a `String` (ASCII range). -/
def pyLower (s : String) : String := ⟨s.data.map lowerChar⟩

/-- The airline normalization of `validators.validate_passport_data`:
`airline.lower().strip() if airline else "unknown"`. -/
def normAirline (airline : String) : String :=
  if airline = "" then "unknown" else pyStrip (pyLower airline)

/-- The required-field list of the `iraq` branch of `validators.py`. -/
def iraqFieldsVs : List String :=
  ["surname", "name", "passport_number", "date_of_birth",
   "expiration_date", "nationality", "sex"]

/-- The required-field list of the `flydubai` branch of `validators.py`. -/
def flydubaiFieldsVs : List String :=
  ["surname", "name", "passport_number", "date_of_birth",
   "expiration_date", "issuing_country", "nationality"]

/-- The `if airline == ... / elif ... / else` profile dispatch of
`validators.py`; `none` is the unrecognized-airline branch. -/
def requiredFieldsVs (a : String) : Option (List String) :=
  if a = "iraq" then some iraqFieldsVs
  else if a = "flydubai" || a = "fly_dubai" || a = "fz" then some flydubaiFieldsVs
  else none

/-- The missing-field test of `validators.py`:
`not data.get(field) or str(data.get(field)).strip() == ""`. -/
def isMissingVs (v : Option String) : Bool :=
  match v with
  | none => true
  | some s => s = "" || pyStrip s = ""

/-- Python `'/' in val`. -/
def hasSlash (s : String) : Bool := s.data.contains '/'

/-- Python `c.isdigit()` for ASCII digits. -/
def isDigitChar (c : Char) : Bool := 48 ≤ c.toNat && c.toNat ≤ 57

/-- Numeric value of a digit string. -/
def natOfDigits (l : List Char) : Nat :=
  l.foldl (fun acc c => 10 * acc + (c.toNat - 48)) 0

/-- Gregorian leap year, as `calendar`/`datetime` compute it. -/
def isLeap (y : Nat) : Bool := (y % 4 == 0 && y % 100 != 0) || y % 400 == 0

/-- Length of a month, as `datetime` validates it. -/
def daysInMonth (m y : Nat) : Nat :=
  if m = 2 then (if isLeap y then 29 else 28)
  else if m = 4 || m = 6 || m = 9 || m = 11 then 30
  else 31

/-- Split a character list at every `'/'` (Python `s.split('/')`). -/
def splitSlash : List Char → List (List Char)
  | [] => [[]]
  | c :: rest =>
    if c = '/' then [] :: splitSlash rest
    else
      match splitSlash rest with
      | [] => [[c]]
      | w :: ws => (c :: w) :: ws

/-- Embedding of `datetime.datetime.strptime(val, '%d/%m/%Y')` succeeding:
exactly `day/month/year` with a 1- or 2-digit day and month, a 4-digit
year, and a valid Gregorian calendar date (year at least 1). -/
def strptimeDMY (s : String) : Bool :=
  match splitSlash s.data with
  | [d, m, y] =>
    decide (d ≠ []) && d.length ≤ 2 && d.all isDigitChar &&
    decide (m ≠ []) && m.length ≤ 2 && m.all isDigitChar &&
    y.length = 4 && y.all isDigitChar &&
    (let dv := natOfDigits d
     let mv := natOfDigits m
     let yv := natOfDigits y
     1 ≤ yv && 1 ≤ mv && mv ≤ 12 && 1 ≤ dv && dv ≤ daysInMonth mv yv)
  | _ => false

/-- The missing-field error loop of `validators.py`. -/
def missingErrorsVs (data : Record) (req : List String) : List String :=
  req.filterMap (fun f =>
    if isMissingVs (data.lookup f) then some ("Missing required field: " ++ f)
    else none)

/-- One iteration of the date-format check loop of `validators.py`: a
present, non-`"N/A"` value containing `'/'` that `strptime` rejects
produces an error, anything else none. -/
def dateErrVs (data : Record) (f : String) : Option String :=
  match data.lookup f with
  | none => none
  | some v =>
    if v ≠ "" && v ≠ "N/A" && hasSlash v && !strptimeDMY v then
      some ("Invalid date format for " ++ f ++ ": " ++ v)
    else none

/-- The date-format check loop of `validators.py`, over its two date fields. -/
def dateErrorsVs (data : Record) : List String :=
  ["date_of_birth", "expiration_date"].filterMap (dateErrVs data)

/-- Embedding of `validators.validate_passport_data` (src/validators.py),
the validator imported by `app.py`. -/
def validatorsValidate (data : Record) (airline : String) : Bool × List String :=
  if data = [] then (false, ["No data to validate"])
  else
    let a := normAirline airline
    match requiredFieldsVs a with
    | none => (false, ["Unknown airline format: " ++ a])
    | some req =>
      let errs := missingErrorsVs data req ++ dateErrorsVs data
      (errs.length == 0, errs)

/-- The required-field list of the `iraqi` branch of `validator.py`. -/
def iraqiFieldsV : List String := ["name", "surname", "date_of_birth", "sex"]

/-- The required-field list of the `flydubai` branch of `validator.py`. -/
def flydubaiFieldsV : List String :=
  ["surname", "name", "sex", "date_of_birth",
   "passport_number", "nationality", "issuing_country", "expiration_date"]

/-- Profile dispatch of `validator.py`. -/
def requiredFieldsV (a : String) : Option (List String) :=
  if a = "iraqi" then some iraqiFieldsV
  else if a = "flydubai" || a = "fly_dubai" || a = "fz" then some flydubaiFieldsV
  else none

/-- The missing-field test of `validator.py`:
`not val or str(val).strip() in ["", "N/A"]`. -/
def isMissingV (v : Option String) : Bool :=
  match v with
  | none => true
  | some s => s = "" || pyStrip s = "" || pyStrip s = "N/A"

/-- Embedding of `validator.validate_passport_data` (src/validator.py). -/
def validatorValidate (data : Record) (airline : String) : Bool × List String :=
  if data = [] then (false, ["No data extracted."])
  else
    let a := pyStrip (pyLower airline)
    match requiredFieldsV a with
    | none => (false, ["Unknown airline: " ++ a])
    | some req =>
      let errs := req.filterMap (fun f =>
        if isMissingV (data.lookup f) then some ("Missing required field: " ++ f)
        else none)
      (errs.length == 0, errs)

/-! ### Sex-code reconciliation (src/extractor.py, extract_mrz_from_roi) -/

/-- Embedding of the correction step of `PassportExtractor.extract_mrz_from_roi`:
when the detector object carries a non-empty `sex` and `len(line2) > 20`,
element 20 of the character list of line 2 is replaced by the whole `sex`
string and the list is re-joined; line 1 is never touched. -/
def reconcileSex (sex : List Char) (line1 line2 : List Char) : List Char × List Char :=
  if sex ≠ [] ∧ 20 < line2.length then
    (line1, line2.take 20 ++ sex ++ line2.drop 21)
  else (line1, line2)

/-! ### get_country_name (src/utils.py) -/

/-- One entry of the country reference table: an alpha-3 code and a name. -/
structure CountryEntry where
  alpha3 : String
  name : String
deriving DecidableEq

/-- Python `str.upper()` on a `String` (ASCII range). -/
def pyUpper (s : String) : String := ⟨s.data.map upperChar⟩

/-- Embedding of `utils.get_country_name`, parameterized by the reference
table: uppercase the code, return the first matching entry's name
uppercased, otherwise the uppercased code. -/
def get_country_name (table : List CountryEntry) (code : String) : String :=
  let cc := pyUpper code
  match table.find? (fun e => e.alpha3 = cc) with
  | some e => pyUpper e.name
  | none => cc

/-- Modelled from the spec: `COUNTRY_CODES` lives in `config/settings.py`,
which is not among the sources; the spec only says it is a static table of
alpha-3 code to display name.  This sample instantiation is used for the
concrete counterexample; the theorems quantify over every table. -/
def sampleTable : List CountryEntry := [⟨"UTO", "Utopia"⟩]

/-! ### Concrete inputs used by the counterexamples and witnesses -/

/-- A 44-character line 1 whose name region starts with the double filler. -/
def cexLine1 : List Char := ("P<UTO<<ABC").data ++ List.replicate 34 '<'

/-- An arbitrary 44-character line 2. -/
def cexLine2 : List Char := List.replicate 44 '<'

/-- The record with an `"N/A"` surname used against `validators.py`. -/
def naRecord : Record :=
  [("surname", "N/A"), ("name", "ANNA"), ("passport_number", "L898902C3"),
   ("date_of_birth", "12/08/1974"), ("expiration_date", "15/04/2032"),
   ("nationality", "UTOPIA"), ("sex", "F")]

/-- The record with an `"N/A"` surname used against `validator.py`. -/
def naRecordV : Record :=
  [("name", "ANNA"), ("surname", "N/A"), ("date_of_birth", "12/08/1974"), ("sex", "F")]

/-- The record whose date of birth is the `"N/A"` sentinel. -/
def naDateRecord : Record :=
  [("surname", "A"), ("name", "B"), ("passport_number", "C"),
   ("date_of_birth", "N/A"), ("expiration_date", "15/04/2032"),
   ("nationality", "D"), ("sex", "F")]

/-- A record whose date of birth contains `'/'` but is not a valid date. -/
def badDateRecord : Record :=
  [("surname", "A"), ("name", "B"), ("passport_number", "C"),
   ("date_of_birth", "99/99/1999"), ("expiration_date", "15/04/2032"),
   ("nationality", "D"), ("sex", "F")]

/-! ## Theorems -/

/-- Claim C2: decoding the ICAO specimen pair (after the `clean_mrz_line`
pre-step) yields exactly the claimed field values. -/
theorem C2_specimen_decode :
    (FallbackMRZ.parse
        (clean_mrz_line ("P<UTOERIKSSON<<ANNA<MARIA<<<<<<<<<<<<<<<<<<<").data)
        (clean_mrz_line ("L898902C36UTO7408122F1204159ZE184226B<<<<<10").data)) =
      { type := ("P").data
        country := ("UTO").data
        surname := ("ERIKSSON").data
        names := ("ANNA MARIA").data
        number := ("L898902C3").data
        nationality := ("UTO").data
        date_of_birth := ("740812").data
        sex := ("F").data
        expiration_date := ("120415").data
        personal_number := ("ZE184226B").data } := by
  decide

/-- Claim C1 is false as stated: on this 44/44 pair the decoder's surname is
`"ABC"`, while splitting the raw name region `line1[5:44]` at its first
`<<` (as the claim states) puts everything after that `<<`, leaving an
empty surname — the source strips fillers off both ends of the region
before looking for `<<`. -/
theorem C1_counterexample :
    cexLine1.length = 44 ∧ cexLine2.length = 44 ∧
    (FallbackMRZ.parse cexLine1 cexLine2).surname = ("ABC").data ∧
    (claimNameFields (pySlice cexLine1 5 44)).1 = [] ∧
    (FallbackMRZ.parse cexLine1 cexLine2).surname ≠
      (claimNameFields (pySlice cexLine1 5 44)).1 := by
  decide

/-- Claim C1 (amended): for 44-character lines every field comes from the
fixed TD3 slice, and the name fields come from the name region
`line1[5:44]` first stripped of leading and trailing fillers, then split
at the first `<<` exactly as the claim describes. -/
theorem C1_field_offsets (l1 l2 : List Char) (h1 : l1.length = 44) (h2 : l2.length = 44) :
    (FallbackMRZ.parse l1 l2).type = removeFiller (pySlice l1 0 2) ∧
    (FallbackMRZ.parse l1 l2).country = removeFiller (pySlice l1 2 5) ∧
    (FallbackMRZ.parse l1 l2).surname = (claimNameFields (stripFiller (pySlice l1 5 44))).1 ∧
    (FallbackMRZ.parse l1 l2).names = (claimNameFields (stripFiller (pySlice l1 5 44))).2 ∧
    (FallbackMRZ.parse l1 l2).number = removeFiller (pySlice l2 0 9) ∧
    (FallbackMRZ.parse l1 l2).nationality = removeFiller (pySlice l2 10 13) ∧
    (FallbackMRZ.parse l1 l2).date_of_birth = pySlice l2 13 19 ∧
    (FallbackMRZ.parse l1 l2).sex = pySlice l2 20 21 ∧
    (FallbackMRZ.parse l1 l2).expiration_date = pySlice l2 21 27 ∧
    (FallbackMRZ.parse l1 l2).personal_number = removeFiller (pySlice l2 28 42) := by
  have h44a : 44 ≤ l1.length := le_of_eq h1.symm
  have h44b : 44 ≤ l2.length := le_of_eq h2.symm
  have hslice : (l1.drop 5).take 39 = l1.drop 5 := by
    apply List.take_of_length_le
    simp [h1]
  simp only [FallbackMRZ.parse, parseLine1Fields, if_pos h44a, if_pos h44b,
    claimNameFields, pySlice, List.drop_zero, emptyMRZ, hslice]
  cases hs : splitDouble (stripFiller (l1.drop 5)) <;> simp [hs]

/-- Witness for `C1_field_offsets` at a concrete pair of 44-character lines. -/
theorem C1_field_offsets_witness :
    (FallbackMRZ.parse cexLine1 cexLine2).type = removeFiller (pySlice cexLine1 0 2) ∧
    (FallbackMRZ.parse cexLine1 cexLine2).country = removeFiller (pySlice cexLine1 2 5) ∧
    (FallbackMRZ.parse cexLine1 cexLine2).surname =
      (claimNameFields (stripFiller (pySlice cexLine1 5 44))).1 ∧
    (FallbackMRZ.parse cexLine1 cexLine2).names =
      (claimNameFields (stripFiller (pySlice cexLine1 5 44))).2 ∧
    (FallbackMRZ.parse cexLine1 cexLine2).number = removeFiller (pySlice cexLine2 0 9) ∧
    (FallbackMRZ.parse cexLine1 cexLine2).nationality = removeFiller (pySlice cexLine2 10 13) ∧
    (FallbackMRZ.parse cexLine1 cexLine2).date_of_birth = pySlice cexLine2 13 19 ∧
    (FallbackMRZ.parse cexLine1 cexLine2).sex = pySlice cexLine2 20 21 ∧
    (FallbackMRZ.parse cexLine1 cexLine2).expiration_date = pySlice cexLine2 21 27 ∧
    (FallbackMRZ.parse cexLine1 cexLine2).personal_number = removeFiller (pySlice cexLine2 28 42) :=
  C1_field_offsets cexLine1 cexLine2 (by decide) (by decide)

/-- Claim C3 is false as stated: on the empty input string `clean_mrz_line`
returns the empty string, not a 44-character one. -/
theorem C3_counterexample :
    clean_mrz_line [] = [] ∧ (clean_mrz_line []).length ≠ 44 := by
  decide

/-- Claim C3 (amended): for every non-empty input, `clean_mrz_line` returns
exactly 44 characters, all from the alphabet A-Z, 0-9, `<`. -/
theorem C3_clean_line_shape (line : List Char) (h : line ≠ []) :
    (clean_mrz_line line).length = 44 ∧
    (clean_mrz_line line).all allowedMrzChar = true := by
  unfold clean_mrz_line
  rw [if_neg h]
  dsimp only
  constructor
  · split
    · rename_i hlt
      simp only [List.length_take, List.length_append, List.length_replicate]
      omega
    · rename_i hge
      simp only [List.length_take]
      omega
  · rw [List.all_eq_true]
    intro c hc
    have hc2 := List.take_subset _ _ hc
    split at hc2
    · rcases List.mem_append.1 hc2 with hmem | hmem
      · exact (List.mem_filter.1 hmem).2
      · rw [List.eq_of_mem_replicate hmem]; decide
    · exact (List.mem_filter.1 hc2).2

/-- Witness for `C3_clean_line_shape` on a short, noisy line. -/
theorem C3_clean_line_shape_witness :
    (("p 1!").data ≠ []) ∧
    ((clean_mrz_line ("p 1!").data).length = 44 ∧
      (clean_mrz_line ("p 1!").data).all allowedMrzChar = true) :=
  ⟨by decide, C3_clean_line_shape ("p 1!").data (by decide)⟩

/-- The look-ahead count of the source is at least 2 exactly when this token
and the next are both short all-`'K'` tokens. -/
lemma junkRun_two_iff (w : List Char) (ws : List (List Char)) :
    (isShortJunk w && decide (2 ≤ junkRunLen (w :: ws))) =
      (isShortJunk w && nextIsShortNoise ws) := by
  by_cases hw : isShortJunk w = true
  · simp only [hw, Bool.true_and]
    unfold junkRunLen
    rw [List.takeWhile_cons_of_pos hw]
    cases ws with
    | nil => simp [nextIsShortNoise]
    | cons w2 t =>
      by_cases hw2 : isShortJunk w2 = true
      · rw [List.takeWhile_cons_of_pos hw2]
        simp only [nextIsShortNoise, hw2, List.length_cons]
        simp
        try omega
      · rw [List.takeWhile_cons_of_neg (by simp [hw2])]
        simp [nextIsShortNoise, hw2]
  · have hw' : isShortJunk w = false := by revert hw; cases isShortJunk w <;> simp
    simp [hw']

/-- The source's scan loop coincides with the scan as the claim words it. -/
lemma scanWords_eq_claimScan : ∀ ws, scanWords ws = claimScan ws := by
  intro ws
  induction ws with
  | nil => rfl
  | cons w t ih =>
    unfold scanWords claimScan
    rw [junkRun_two_iff w t, ih]

/-- Claim C4: `clean_name_field` is exactly expansion, tokenization, the
claim's left-to-right junk scan (stop at a token of length at least 3 that
is more than 70 percent `'K'`; stop at a short all-`'K'` token exactly
when the next token is also one), a single-space join and a trim; in
particular it sends `"IBRAHEEM K K"` to `"IBRAHEEM"` and leaves
`"IBRAHEEM K"` unchanged. -/
theorem C4_name_cleaner :
    (∀ text : List Char,
      clean_name_field text = stripWs (joinWords (claimScan (splitWs (expandText text))))) ∧
    clean_name_field ("IBRAHEEM K K").data = ("IBRAHEEM").data ∧
    clean_name_field ("IBRAHEEM K").data = ("IBRAHEEM K").data := by
  refine ⟨fun text => ?_, by decide, by decide⟩
  unfold clean_name_field
  rw [scanWords_eq_claimScan]
  split
  · rename_i h
    subst h
    rfl
  · rfl

/-! ### Lemmas toward idempotence of the name cleaner (claim C5) -/

lemma toNat_ofNat_upper (m : Nat) (h1 : 65 ≤ m) (h2 : m ≤ 90) :
    (Char.ofNat m).toNat = m := by
  interval_cases m <;> decide

lemma upperChar_idem (c : Char) : upperChar (upperChar c) = upperChar c := by
  unfold upperChar
  by_cases h : 97 ≤ c.toNat ∧ c.toNat ≤ 122
  · rw [if_pos h, if_neg]
    intro hcon
    have hofnat := toNat_ofNat_upper (c.toNat - 32) (by omega) (by omega)
    omega
  · rw [if_neg h, if_neg h]

lemma mem_replDoubleFiller : ∀ {l : List Char} {c : Char},
    c ∈ replDoubleFiller l → c ∈ l ∨ c = ' ' := by
  intro l
  induction l using replDoubleFiller.induct with
  | case1 =>
    intro c hc
    simp [replDoubleFiller] at hc
  | case2 d =>
    intro c hc
    simp only [replDoubleFiller] at hc
    exact Or.inl hc
  | case3 c0 d rest hcd ih =>
    intro c hc
    rw [replDoubleFiller, if_pos hcd] at hc
    rcases List.mem_cons.1 hc with h | h
    · exact Or.inr h
    · rcases ih h with h2 | h2
      · exact Or.inl (List.mem_cons_of_mem _ (List.mem_cons_of_mem _ h2))
      · exact Or.inr h2
  | case4 c0 d rest hcd ih =>
    intro c hc
    rw [replDoubleFiller, if_neg hcd] at hc
    rcases List.mem_cons.1 hc with h | h
    · exact Or.inl (h ▸ List.mem_cons_self _ _)
    · rcases ih h with h2 | h2
      · exact Or.inl (List.mem_cons_of_mem _ h2)
      · exact Or.inr h2

lemma replDoubleFiller_eq_self : ∀ {l : List Char},
    (∀ c ∈ l, c ≠ '<') → replDoubleFiller l = l := by
  intro l
  induction l using replDoubleFiller.induct with
  | case1 => intro _; rfl
  | case2 d => intro _; rfl
  | case3 c0 d rest hcd ih =>
    intro h
    exact absurd hcd.1 (h c0 (List.mem_cons_self _ _))
  | case4 c0 d rest hcd ih =>
    intro h
    rw [replDoubleFiller, if_neg hcd,
      ih (fun c hc => h c (List.mem_cons_of_mem _ hc))]

lemma expandText_chars {text : List Char} :
    ∀ c ∈ expandText text, upperChar c = c ∧ c ≠ '<' := by
  intro c hc
  unfold expandText at hc
  rcases List.mem_map.1 hc with ⟨d, hd, hrepl⟩
  by_cases hdlt : d = '<'
  · rw [if_pos hdlt] at hrepl
    rw [← hrepl]
    exact ⟨by decide, by decide⟩
  · rw [if_neg hdlt] at hrepl
    subst hrepl
    rcases mem_replDoubleFiller hd with h | h
    · rcases List.mem_map.1 h with ⟨e, _, he⟩
      exact ⟨he ▸ upperChar_idem e, hdlt⟩
    · rw [h]
      exact ⟨by decide, by decide⟩

lemma splitWsAux_nil (acc : List Char) :
    splitWsAux [] acc = if acc = [] then [] else [acc.reverse] := rfl

lemma splitWsAux_cons (c : Char) (rest acc : List Char) :
    splitWsAux (c :: rest) acc =
      if isWs c then
        if acc = [] then splitWsAux rest []
        else acc.reverse :: splitWsAux rest []
      else splitWsAux rest (c :: acc) := rfl

lemma scanWords_cons (w : List Char) (ws : List (List Char)) :
    scanWords (w :: ws) =
      if isLongJunk w then []
      else if isShortJunk w && decide (2 ≤ junkRunLen (w :: ws)) then []
      else w :: scanWords ws := rfl

lemma splitWsAux_token_props : ∀ (l acc : List Char), (∀ c ∈ acc, isWs c = false) →
    ∀ w ∈ splitWsAux l acc, w ≠ [] ∧ ∀ c ∈ w, isWs c = false ∧ (c ∈ l ∨ c ∈ acc) := by
  intro l
  induction l with
  | nil =>
    intro acc hacc w hw
    unfold splitWsAux at hw
    split at hw
    · simp at hw
    · rename_i hane
      rw [List.mem_singleton] at hw
      subst hw
      refine ⟨by simpa using hane, fun c hc => ?_⟩
      rw [List.mem_reverse] at hc
      exact ⟨hacc c hc, Or.inr hc⟩
  | cons c0 rest ih =>
    intro acc hacc w hw
    unfold splitWsAux at hw
    by_cases hc0 : isWs c0 = true
    · rw [if_pos hc0] at hw
      by_cases ha : acc = []
      · rw [if_pos ha] at hw
        obtain ⟨hne, hall⟩ := ih [] (by simp) w hw
        refine ⟨hne, fun c hc => ⟨(hall c hc).1, ?_⟩⟩
        rcases (hall c hc).2 with h | h
        · exact Or.inl (List.mem_cons_of_mem _ h)
        · simp at h
      · rw [if_neg ha] at hw
        rcases List.mem_cons.1 hw with hw1 | hw2
        · subst hw1
          refine ⟨by simpa using ha, fun c hc => ?_⟩
          rw [List.mem_reverse] at hc
          exact ⟨hacc c hc, Or.inr hc⟩
        · obtain ⟨hne, hall⟩ := ih [] (by simp) w hw2
          refine ⟨hne, fun c hc => ⟨(hall c hc).1, ?_⟩⟩
          rcases (hall c hc).2 with h | h
          · exact Or.inl (List.mem_cons_of_mem _ h)
          · simp at h
    · rw [if_neg hc0] at hw
      have hc0' : isWs c0 = false := by revert hc0; cases isWs c0 <;> simp
      obtain ⟨hne, hall⟩ := ih (c0 :: acc)
        (fun c hc => by
          rcases List.mem_cons.1 hc with h | h
          · exact h ▸ hc0'
          · exact hacc c h) w hw
      refine ⟨hne, fun c hc => ⟨(hall c hc).1, ?_⟩⟩
      rcases (hall c hc).2 with h | h
      · exact Or.inl (List.mem_cons_of_mem _ h)
      · rcases List.mem_cons.1 h with h2 | h2
        · exact Or.inl (h2 ▸ List.mem_cons_self _ _)
        · exact Or.inr h2

lemma splitWs_token_props (l : List Char) :
    ∀ w ∈ splitWs l, w ≠ [] ∧ ∀ c ∈ w, isWs c = false ∧ c ∈ l := by
  intro w hw
  obtain ⟨hne, hall⟩ := splitWsAux_token_props l [] (by simp) w hw
  refine ⟨hne, fun c hc => ⟨(hall c hc).1, ?_⟩⟩
  rcases (hall c hc).2 with h | h
  · exact h
  · simp at h

lemma splitWsAux_append_word : ∀ (w : List Char), (∀ c ∈ w, isWs c = false) →
    ∀ (l acc : List Char), splitWsAux (w ++ l) acc = splitWsAux l (w.reverse ++ acc) := by
  intro w
  induction w with
  | nil => intro _ l acc; simp
  | cons c w' ih =>
    intro hw l acc
    have hc : isWs c = false := hw c (List.mem_cons_self _ _)
    show splitWsAux (c :: (w' ++ l)) acc = _
    rw [splitWsAux_cons, if_neg (by simp [hc]),
      ih (fun d hd => hw d (List.mem_cons_of_mem _ hd)) l (c :: acc)]
    simp

lemma splitWs_join : ∀ (ws : List (List Char)),
    (∀ w ∈ ws, w ≠ [] ∧ ∀ c ∈ w, isWs c = false) →
    splitWs (joinWords ws) = ws := by
  intro ws
  induction ws with
  | nil => intro _; rfl
  | cons w t ih =>
    intro hws
    obtain ⟨hwne, hwchars⟩ := hws w (List.mem_cons_self _ _)
    cases t with
    | nil =>
      show splitWsAux (joinWords [w]) [] = [w]
      have hjw : joinWords [w] = w ++ [] := by simp [joinWords]
      rw [hjw, splitWsAux_append_word w hwchars [] [], splitWsAux_nil,
        if_neg (by simpa using hwne)]
      simp
    | cons x t' =>
      show splitWsAux (joinWords (w :: x :: t')) [] = w :: x :: t'
      have hjoin : joinWords (w :: x :: t') = w ++ ' ' :: joinWords (x :: t') := rfl
      rw [hjoin, splitWsAux_append_word w hwchars (' ' :: joinWords (x :: t')) [],
        splitWsAux_cons, if_pos (by decide), if_neg (by simpa using hwne),
        List.append_nil, List.reverse_reverse]
      exact congrArg (w :: ·) (ih (fun u hu => hws u (List.mem_cons_of_mem _ hu)))

lemma stripWs_eq_self_of_ends (l : List Char)
    (h1 : ∀ c ∈ l.take 1, isWs c = false) (h2 : ∀ c ∈ l.reverse.take 1, isWs c = false) :
    stripWs l = l := by
  unfold stripWs
  cases l with
  | nil => rfl
  | cons c t =>
    have hc : isWs c = false := h1 c (by simp)
    rw [List.dropWhile_cons_of_neg (by simp [hc])]
    cases hr : (c :: t).reverse with
    | nil => exact absurd (congrArg List.length hr) (by simp)
    | cons d r =>
      have hd : isWs d = false := h2 d (by rw [hr]; simp)
      have hdrop : List.dropWhile isWs (d :: r) = d :: r :=
        List.dropWhile_cons_of_neg (by simp [hd])
      rw [hdrop, ← hr, List.reverse_reverse]

lemma joinWords_ne_nil (w : List Char) (ws : List (List Char)) (hw : w ≠ []) :
    joinWords (w :: ws) ≠ [] := by
  cases ws with
  | nil => exact hw
  | cons x t =>
    show w ++ ' ' :: joinWords (x :: t) ≠ []
    simp

lemma mem_joinWords : ∀ (ws : List (List Char)) (c : Char),
    c ∈ joinWords ws → (∃ w ∈ ws, c ∈ w) ∨ c = ' ' := by
  intro ws
  induction ws with
  | nil => intro c hc; simp [joinWords] at hc
  | cons w t ih =>
    intro c hc
    cases t with
    | nil => exact Or.inl ⟨w, List.mem_cons_self _ _, hc⟩
    | cons x t' =>
      replace hc : c ∈ w ++ ' ' :: joinWords (x :: t') := hc
      rcases List.mem_append.1 hc with h | h
      · exact Or.inl ⟨w, List.mem_cons_self _ _, h⟩
      · rcases List.mem_cons.1 h with h2 | h2
        · exact Or.inr h2
        · rcases ih c h2 with ⟨w', hw', hcw'⟩ | h3
          · exact Or.inl ⟨w', List.mem_cons_of_mem _ hw', hcw'⟩
          · exact Or.inr h3

lemma join_head_mem (w : List Char) (ws : List (List Char)) (hw : w ≠ []) :
    ∀ c ∈ (joinWords (w :: ws)).take 1, c ∈ w := by
  intro c hc
  cases ws with
  | nil => exact List.take_subset _ _ hc
  | cons x t =>
    cases w with
    | nil => exact absurd rfl hw
    | cons c0 w0 =>
      replace hc : c ∈ ((c0 :: w0) ++ ' ' :: joinWords (x :: t)).take 1 := hc
      rw [List.cons_append, List.take_cons (by omega)] at hc
      simp at hc
      simp [hc]

lemma join_last_mem : ∀ (ws : List (List Char)), (∀ w ∈ ws, w ≠ []) →
    ∀ c ∈ (joinWords ws).reverse.take 1, ∃ w ∈ ws, c ∈ w := by
  intro ws
  induction ws with
  | nil => intro _ c hc; simp [joinWords] at hc
  | cons w t ih =>
    intro hws c hc
    cases t with
    | nil =>
      refine ⟨w, List.mem_cons_self _ _, ?_⟩
      have := List.take_subset _ _ hc
      exact List.mem_reverse.1 this
    | cons x t' =>
      have hj : joinWords (w :: x :: t') = w ++ ' ' :: joinWords (x :: t') := rfl
      have hxne : joinWords (x :: t') ≠ [] :=
        joinWords_ne_nil x t' (hws x (List.mem_cons_of_mem _ (List.mem_cons_self _ _)))
      rw [hj] at hc
      cases hrev : (joinWords (x :: t')).reverse with
      | nil => exact absurd (by simpa using congrArg List.length hrev) hxne
      | cons d r =>
        have hshape : (w ++ ' ' :: joinWords (x :: t')).reverse =
            d :: (r ++ ' ' :: w.reverse) := by
          rw [List.reverse_append, List.reverse_cons, hrev]
          simp
        rw [hshape, List.take_cons (by omega)] at hc
        simp at hc
        obtain ⟨w', hw', hcw'⟩ := ih (fun u hu => hws u (List.mem_cons_of_mem _ hu)) d
          (by rw [hrev]; simp)
        exact ⟨w', List.mem_cons_of_mem _ hw', by rw [hc]; exact hcw'⟩

lemma scanWords_mem : ∀ (t : List (List Char)) (w : List Char), w ∈ scanWords t → w ∈ t := by
  intro t
  induction t with
  | nil => intro w hw; simp [scanWords] at hw
  | cons x s ih =>
    intro w hw
    unfold scanWords at hw
    split at hw
    · simp at hw
    · split at hw
      · simp at hw
      · rcases List.mem_cons.1 hw with h | h
        · exact h ▸ List.mem_cons_self _ _
        · exact List.mem_cons_of_mem _ (ih w h)

lemma nextIsShortNoise_scanWords (ws : List (List Char))
    (h : nextIsShortNoise ws = false) : nextIsShortNoise (scanWords ws) = false := by
  cases ws with
  | nil => rfl
  | cons w2 t2 =>
    have hw2 : isShortJunk w2 = false := h
    unfold scanWords
    split
    · rfl
    · split
      · rfl
      · exact hw2

lemma scanWords_idem : ∀ t, scanWords (scanWords t) = scanWords t := by
  intro t
  induction t with
  | nil => rfl
  | cons w ws ih =>
    by_cases hL : isLongJunk w = true
    · have h0 : scanWords (w :: ws) = [] := by rw [scanWords_cons, if_pos hL]
      rw [h0]
      rfl
    · by_cases hS : (isShortJunk w && decide (2 ≤ junkRunLen (w :: ws))) = true
      · have h0 : scanWords (w :: ws) = [] := by
          rw [scanWords_cons, if_neg hL, if_pos hS]
        rw [h0]
        rfl
      · have hstep : scanWords (w :: ws) = w :: scanWords ws := by
          rw [scanWords_cons, if_neg hL, if_neg hS]
        rw [hstep]
        have hS2 : (isShortJunk w && decide (2 ≤ junkRunLen (w :: scanWords ws))) = false := by
          rw [junkRun_two_iff] at *
          by_cases hj : isShortJunk w = true
          · have hnext : nextIsShortNoise ws = false := by
              revert hS
              rw [hj]
              cases nextIsShortNoise ws <;> simp
            rw [hj, Bool.true_and] at *
            exact nextIsShortNoise_scanWords ws hnext
          · have hj' : isShortJunk w = false := by revert hj; cases isShortJunk w <;> simp
            rw [hj']
            rfl
        show scanWords (w :: scanWords ws) = w :: scanWords ws
        rw [scanWords_cons, if_neg hL, if_neg (by simp [hS2]), ih]

lemma stripWs_joinWords_eq (ws : List (List Char))
    (h : ∀ w ∈ ws, w ≠ [] ∧ ∀ c ∈ w, isWs c = false) :
    stripWs (joinWords ws) = joinWords ws := by
  cases ws with
  | nil => rfl
  | cons w t =>
    apply stripWs_eq_self_of_ends
    · intro c hc
      have hw := h w (List.mem_cons_self _ _)
      exact hw.2 c (join_head_mem w t hw.1 c hc)
    · intro c hc
      obtain ⟨w', hw', hcw'⟩ := join_last_mem (w :: t) (fun u hu => (h u hu).1) c hc
      exact (h w' hw').2 c hcw'

/-- Claim C5: the name cleaner is idempotent — cleaning an already cleaned
name string returns it unchanged. -/
theorem C5_idempotent (text : List Char) :
    clean_name_field (clean_name_field text) = clean_name_field text := by
  by_cases ht : text = []
  · subst ht; rfl
  · have hkeptprops : ∀ w ∈ scanWords (splitWs (expandText text)),
        w ≠ [] ∧ ∀ c ∈ w, isWs c = false ∧ c ∈ expandText text :=
      fun w hw => splitWs_token_props (expandText text) w (scanWords_mem _ w hw)
    have hprops2 : ∀ w ∈ scanWords (splitWs (expandText text)),
        w ≠ [] ∧ ∀ c ∈ w, isWs c = false :=
      fun w hw => ⟨(hkeptprops w hw).1, fun c hc => ((hkeptprops w hw).2 c hc).1⟩
    have hgood : ∀ w ∈ scanWords (splitWs (expandText text)),
        ∀ c ∈ w, upperChar c = c ∧ c ≠ '<' :=
      fun w hw c hc => expandText_chars c (((hkeptprops w hw).2 c hc).2)
    have hval : clean_name_field text = joinWords (scanWords (splitWs (expandText text))) := by
      unfold clean_name_field
      rw [if_neg ht, stripWs_joinWords_eq _ hprops2]
    rw [hval]
    generalize hgen : scanWords (splitWs (expandText text)) = kept at hprops2 hgood
    have hscan : scanWords kept = kept := by rw [← hgen, scanWords_idem]
    cases kept with
    | nil => rfl
    | cons w t =>
      have hwne : w ≠ [] := (hprops2 w (List.mem_cons_self _ _)).1
      have hne : joinWords (w :: t) ≠ [] := joinWords_ne_nil w t hwne
      have hchars : ∀ c ∈ joinWords (w :: t), upperChar c = c ∧ c ≠ '<' := by
        intro c hc
        rcases mem_joinWords _ c hc with ⟨w', hw', hcw'⟩ | hsp
        · exact hgood w' hw' c hcw'
        · rw [hsp]
          exact ⟨by decide, by decide⟩
      have hexp : expandText (joinWords (w :: t)) = joinWords (w :: t) := by
        unfold expandText
        have hup : (joinWords (w :: t)).map upperChar = joinWords (w :: t) :=
          calc (joinWords (w :: t)).map upperChar
              = (joinWords (w :: t)).map id :=
                List.map_congr_left (fun c hc => (hchars c hc).1)
            _ = joinWords (w :: t) := List.map_id _
        rw [hup, replDoubleFiller_eq_self (fun c hc => (hchars c hc).2)]
        calc (joinWords (w :: t)).map (fun c => if c = '<' then ' ' else c)
            = (joinWords (w :: t)).map id :=
              List.map_congr_left (fun c hc => if_neg (hchars c hc).2)
          _ = joinWords (w :: t) := List.map_id _
      unfold clean_name_field
      rw [if_neg hne, hexp, splitWs_join (w :: t) hprops2, hscan,
        stripWs_joinWords_eq _ hprops2]

/-! ### Validator theorems (claims C6, C7, C10) -/

lemma stripWs_eq_nil_iff (l : List Char) : stripWs l = [] ↔ l.all isWs = true := by
  unfold stripWs
  rw [List.reverse_eq_nil_iff, List.dropWhile_eq_nil_iff, List.all_eq_true]
  constructor
  · intro h x hx
    rcases List.mem_append.1 ((List.takeWhile_append_dropWhile isWs l) ▸ hx) with h2 | h2
    · exact List.mem_takeWhile_imp h2
    · exact h x (List.mem_reverse.2 h2)
  · intro h x hx
    exact h x ((List.takeWhile_append_dropWhile isWs l) ▸
      List.mem_append_right _ (List.mem_reverse.1 hx))

lemma pyStrip_eq_empty_iff (s : String) : pyStrip s = "" ↔ s.data.all isWs = true := by
  rw [show pyStrip s = ⟨stripWs s.data⟩ from rfl, String.ext_iff]
  exact stripWs_eq_nil_iff s.data

/-- Claim C6 is false as stated for the validator wired into the application
(src/validators.py): a required field whose value is the string `"N/A"`
is not reported missing there — the record validates cleanly. -/
theorem C6_counterexample :
    naRecord.lookup "surname" = some "N/A" ∧
    validatorsValidate naRecord "iraq" = (true, []) := by
  decide

/-- Claim C6 (amended): only the standalone validator `validator.py` treats a
field as missing when it is absent, empty, whitespace-only, or strips to
the `"N/A"` sentinel; the wired validator `validators.py` treats a field
as missing exactly when it is absent, empty or whitespace-only, and a
required `"N/A"` value passes its check.  On concrete records the two
differ exactly as amended. -/
theorem C6_missing_field_rule (v : Option String) :
    (isMissingV v = true ↔
      (v = none ∨ ∃ s, v = some s ∧ (s.data.all isWs = true ∨ pyStrip s = "N/A"))) ∧
    (isMissingVs v = true ↔
      (v = none ∨ ∃ s, v = some s ∧ s.data.all isWs = true)) ∧
    validatorValidate naRecordV "iraqi" = (false, ["Missing required field: surname"]) ∧
    validatorsValidate naRecord "iraq" = (true, []) := by
  refine ⟨?_, ?_, by decide, by decide⟩
  · cases v with
    | none => simp [isMissingV]
    | some s =>
      unfold isMissingV
      constructor
      · intro h
        refine Or.inr ⟨s, rfl, ?_⟩
        have h2 : (s = "" ∨ pyStrip s = "") ∨ pyStrip s = "N/A" := by simpa using h
        rcases h2 with (h2 | h2) | h2
        · subst h2
          exact Or.inl (by decide)
        · exact Or.inl ((pyStrip_eq_empty_iff s).1 h2)
        · exact Or.inr h2
      · rintro (h | ⟨s', hs', h⟩)
        · exact absurd h (by simp)
        · have hss : s' = s := by injection hs' with h3; exact h3.symm
          subst hss
          rcases h with h | h
          · have := (pyStrip_eq_empty_iff s').2 h
            simp [this]
          · simp [h]
  · cases v with
    | none => simp [isMissingVs]
    | some s =>
      unfold isMissingVs
      constructor
      · intro h
        refine Or.inr ⟨s, rfl, ?_⟩
        have h2 : s = "" ∨ pyStrip s = "" := by simpa using h
        rcases h2 with h2 | h2
        · subst h2
          decide
        · exact (pyStrip_eq_empty_iff s).1 h2
      · rintro (h | ⟨s', hs', h⟩)
        · exact absurd h (by simp)
        · have hss : s' = s := by injection hs' with h3; exact h3.symm
          subst hss
          have := (pyStrip_eq_empty_iff s').2 h
          simp [this]

/-- Claim C7 is false as stated on the empty record: both validators return
their "no data" error before ever looking at the airline, so the single
error is not the unknown-airline message. -/
theorem C7_counterexample :
    validatorsValidate [] "emirates" = (false, ["No data to validate"]) ∧
    validatorValidate [] "emirates" = (false, ["No data extracted."]) ∧
    ("No data to validate" : String) ≠ "Unknown airline format: emirates" ∧
    ("No data extracted." : String) ≠ "Unknown airline: emirates" := by
  decide

/-- Claim C7 (amended): for every non-empty record, an airline identifier
whose normalization matches no known profile makes each validator return
`isValid = false` with exactly one error — the unknown-airline message —
and the result does not depend on the record's fields at all. -/
theorem C7_unknown_airline (data : Record) (airline : String)
    (hd : data ≠ [])
    (ha : normAirline airline ∉ (["iraq", "flydubai", "fly_dubai", "fz"] : List String))
    (hb : pyStrip (pyLower airline) ∉ (["iraqi", "flydubai", "fly_dubai", "fz"] : List String)) :
    validatorsValidate data airline =
      (false, ["Unknown airline format: " ++ normAirline airline]) ∧
    validatorValidate data airline =
      (false, ["Unknown airline: " ++ pyStrip (pyLower airline)]) := by
  simp only [List.mem_cons, List.not_mem_nil, or_false, not_or] at ha hb
  obtain ⟨ha1, ha2, ha3, ha4⟩ := ha
  obtain ⟨hb1, hb2, hb3, hb4⟩ := hb
  have hr1 : requiredFieldsVs (normAirline airline) = none := by
    unfold requiredFieldsVs
    rw [if_neg ha1, if_neg (by simp [ha2, ha3, ha4])]
  have hr2 : requiredFieldsV (pyStrip (pyLower airline)) = none := by
    unfold requiredFieldsV
    rw [if_neg hb1, if_neg (by simp [hb2, hb3, hb4])]
  constructor
  · unfold validatorsValidate
    rw [if_neg hd]
    dsimp only
    rw [hr1]
  · unfold validatorValidate
    rw [if_neg hd]
    dsimp only
    rw [hr2]

/-- Witness for `C7_unknown_airline` on a one-field record. -/
theorem C7_unknown_airline_witness :
    validatorsValidate [("surname", "X")] "emirates" =
      (false, ["Unknown airline format: " ++ normAirline "emirates"]) ∧
    validatorValidate [("surname", "X")] "emirates" =
      (false, ["Unknown airline: " ++ pyStrip (pyLower "emirates")]) :=
  C7_unknown_airline [("surname", "X")] "emirates" (by decide) (by decide) (by decide)

/-! ### Sex-reconciliation theorems (claim C8) -/

/-- Claim C8 is false as stated: the detector's `sex` is a string, and the
source replaces the single list cell at index 20 by that whole string, so
a two-character sex value changes the length of line 2 — not only the
character at index 20. -/
theorem C8_counterexample :
    ("MF").data ≠ [] ∧ 20 < (List.replicate 44 '<').length ∧
    (List.replicate 44 '<').length = 44 ∧
    ((reconcileSex ("MF").data [] (List.replicate 44 '<')).2).length = 45 := by
  decide

/-- Claim C8 (amended): when the detector's sex value is a single character
and line 2 is longer than 20 characters, exactly the character at index
20 of line 2 is overwritten by it — the prefix before 20, the suffix from
21 on, and the length are unchanged, and line 1 is never modified; with an
empty sex value, or a line 2 of at most 20 characters, line 2 is left
entirely unchanged. -/
theorem C8_sex_overwrite (s : Char) (sex l1 l2 : List Char)
    (h1 : sex = [s]) (h2 : 20 < l2.length) :
    ((reconcileSex sex l1 l2).1 = l1 ∧
      ((reconcileSex sex l1 l2).2).length = l2.length ∧
      ((reconcileSex sex l1 l2).2).take 20 = l2.take 20 ∧
      ((reconcileSex sex l1 l2).2)[20]? = some s ∧
      ((reconcileSex sex l1 l2).2).drop 21 = l2.drop 21) ∧
    reconcileSex [] l1 l2 = (l1, l2) ∧
    reconcileSex sex l1 (l2.take 20) = (l1, l2.take 20) := by
  subst h1
  constructor
  · unfold reconcileSex
    rw [if_pos ⟨by simp, h2⟩]
    have hlen20 : (l2.take 20).length = 20 := by
      rw [List.length_take]
      omega
    have hlen21 : (l2.take 20 ++ [s]).length = 21 := by
      rw [List.length_append, hlen20]
      rfl
    refine ⟨rfl, ?_, ?_, ?_, ?_⟩
    · simp only [List.length_append, List.length_take, List.length_drop,
        List.length_singleton]
      omega
    · rw [List.append_assoc, List.take_append_eq_append_take, hlen20, Nat.sub_self,
        List.take_zero, List.append_nil, List.take_of_length_le (le_of_eq hlen20)]
    · rw [List.append_assoc, List.getElem?_append_right (le_of_eq hlen20), hlen20]
      simp
    · rw [List.drop_append_eq_append_drop, hlen21,
        List.drop_of_length_le (le_of_eq hlen21), Nat.sub_self, List.drop_zero,
        List.nil_append]
  · constructor
    · unfold reconcileSex
      rw [if_neg (by simp)]
    · unfold reconcileSex
      rw [if_neg]
      rintro ⟨-, hlen⟩
      rw [List.length_take] at hlen
      omega

/-- Witness for `C8_sex_overwrite` on a 44-filler line 2. -/
theorem C8_sex_overwrite_witness :
    ((reconcileSex ['F'] [] (List.replicate 44 '<')).1 = [] ∧
      ((reconcileSex ['F'] [] (List.replicate 44 '<')).2).length =
        (List.replicate 44 '<').length ∧
      ((reconcileSex ['F'] [] (List.replicate 44 '<')).2).take 20 =
        (List.replicate 44 '<').take 20 ∧
      ((reconcileSex ['F'] [] (List.replicate 44 '<')).2)[20]? = some 'F' ∧
      ((reconcileSex ['F'] [] (List.replicate 44 '<')).2).drop 21 =
        (List.replicate 44 '<').drop 21) ∧
    reconcileSex [] [] (List.replicate 44 '<') = ([], List.replicate 44 '<') ∧
    reconcileSex ['F'] [] ((List.replicate 44 '<').take 20) =
      ([], (List.replicate 44 '<').take 20) :=
  C8_sex_overwrite 'F' ['F'] [] (List.replicate 44 '<') rfl (by decide)

/-! ### Country-resolver theorems (claim C9) -/

/-- Claim C9 is false as stated: an unresolved code is not passed through
unchanged — the source uppercases it first, so the lowercase unresolved
code `"xx"` comes back as `"XX"`. -/
theorem C9_counterexample :
    (∀ e ∈ sampleTable, e.alpha3 ≠ ("xx" : String)) ∧
    (∀ e ∈ sampleTable, e.alpha3 ≠ pyUpper "xx") ∧
    get_country_name sampleTable "xx" = "XX" ∧ ("XX" : String) ≠ "xx" := by
  decide

/-- Claim C9 (amended): the resolver never fails — it is a total function —
and for every table and code it returns the uppercased display name of
the first entry whose alpha-3 code equals the uppercased input, or the
uppercased input itself when no entry matches. -/
theorem C9_resolver (table : List CountryEntry) (code : String) :
    (∃ e, e ∈ table ∧ e.alpha3 = pyUpper code ∧
      get_country_name table code = pyUpper e.name) ∨
    ((table.all fun e => e.alpha3 != pyUpper code) = true ∧
      get_country_name table code = pyUpper code) := by
  induction table with
  | nil => exact Or.inr ⟨rfl, rfl⟩
  | cons e t ih =>
    by_cases h : e.alpha3 = pyUpper code
    · refine Or.inl ⟨e, List.mem_cons_self _ _, h, ?_⟩
      unfold get_country_name
      dsimp only
      rw [List.find?_cons_of_pos _ (by simp [h])]
    · rcases ih with ⟨e', he', heq, hres⟩ | ⟨hall, hres⟩
      · refine Or.inl ⟨e', List.mem_cons_of_mem _ he', heq, ?_⟩
        unfold get_country_name at hres ⊢
        dsimp only at hres ⊢
        rw [List.find?_cons_of_neg _ (by simp [h])]
        exact hres
      · refine Or.inr ⟨?_, ?_⟩
        · rw [List.all_cons, hall]
          simp [bne_iff_ne, h]
        · unfold get_country_name at hres ⊢
          dsimp only at hres ⊢
          rw [List.find?_cons_of_neg _ (by simp [h])]
          exact hres

/-! ### Date-format theorems (claim C10) -/

/-- Claim C10 is false as stated: the string `"N/A"` contains `'/'` and does
not parse as a date, yet `validators.py` explicitly skips the sentinel, so
the record validates cleanly with no invalid-date error. -/
theorem C10_counterexample :
    naDateRecord.lookup "date_of_birth" = some "N/A" ∧
    hasSlash "N/A" = true ∧ strptimeDMY "N/A" = false ∧
    validatorsValidate naDateRecord "iraq" = (true, []) := by
  decide

/-- Claim C10 (amended): under a recognized profile with no missing required
fields, a date field whose value contains `'/'`, is not the `"N/A"`
sentinel, and fails the `DD/MM/YYYY` parse makes `validators.py` return
`isValid = false` with an invalid-date-format error naming that field. -/
theorem C10_invalid_date (data : Record) (airline : String) (f v : String)
    (req : List String)
    (hreq : requiredFieldsVs (normAirline airline) = some req)
    (hnm : ∀ g ∈ req, isMissingVs (data.lookup g) = false)
    (hf : f = "date_of_birth" ∨ f = "expiration_date")
    (hv : data.lookup f = some v)
    (hna : v ≠ "N/A")
    (hs : hasSlash v = true)
    (hp : strptimeDMY v = false) :
    (validatorsValidate data airline).1 = false ∧
    ("Invalid date format for " ++ f ++ ": " ++ v) ∈ (validatorsValidate data airline).2 := by
  have hdne : data ≠ [] := by
    intro h
    subst h
    simp [List.lookup] at hv
  have hvne : v ≠ "" := by
    intro h
    subst h
    simp [hasSlash] at hs
  have hmiss : missingErrorsVs data req = [] := by
    unfold missingErrorsVs
    rw [List.filterMap_eq_nil_iff]
    intro g hg
    rw [if_neg (by simp [hnm g hg])]
  have hfv : dateErrVs data f = some ("Invalid date format for " ++ f ++ ": " ++ v) := by
    unfold dateErrVs
    rw [hv]
    dsimp only
    rw [if_pos (by simp [hvne, hna, hs, hp])]
  have hdate : ("Invalid date format for " ++ f ++ ": " ++ v) ∈ dateErrorsVs data := by
    unfold dateErrorsVs
    rcases hf with hf | hf <;> subst hf
    · rw [List.filterMap_cons, hfv]
      exact List.mem_cons_self _ _
    · rw [List.filterMap_cons]
      cases hdob : dateErrVs data "date_of_birth" with
      | none =>
        simp only
        rw [List.filterMap_cons, hfv]
        exact List.mem_cons_self _ _
      | some u =>
        simp only
        rw [List.filterMap_cons, hfv]
        exact List.mem_cons_of_mem _ (List.mem_cons_self _ _)
  unfold validatorsValidate
  rw [if_neg hdne]
  dsimp only
  rw [hreq]
  dsimp only
  rw [hmiss]
  simp only [List.nil_append]
  refine ⟨?_, hdate⟩
  have hne := List.ne_nil_of_mem hdate
  rw [beq_eq_false_iff_ne]
  exact fun h => hne (List.length_eq_zero.mp h)

/-- Witness for `C10_invalid_date` on a record with date of birth
`"99/99/1999"`. -/
theorem C10_invalid_date_witness :
    (validatorsValidate badDateRecord "iraq").1 = false ∧
    ("Invalid date format for " ++ "date_of_birth" ++ ": " ++ "99/99/1999") ∈
      (validatorsValidate badDateRecord "iraq").2 :=
  C10_invalid_date badDateRecord "iraq" "date_of_birth" "99/99/1999" iraqFieldsVs
    (by decide) (by decide) (Or.inl rfl) (by decide) (by decide) (by decide) (by decide)

end PassportExtractor
